import Mathlib

/-!
Verification of the CryptoXpress Twitter bot (`cryptoxpress_bot.py`).

Strings are modelled as `List Char` (Python indexes and slices strings by
code point, which matches `List Char` exactly).  The HTTP backends and the
Twitter client are external collaborators: a backend's outcome is an
`Option` value (`none` = non-200 status, malformed body, or a raised and
caught exception), and a raised `create_tweet` call is a `Bool` flag.
Every random draw of the script (`random.choice`, `random.sample`,
`random.uniform`) is passed in as an explicit parameter, constrained to the
range the corresponding library call draws from.
-/

set_option maxRecDepth 200000

namespace TwitterBot

abbrev Str := List Char

/-- The characters Python `str.strip()` removes: the full Unicode whitespace
set of `str.isspace()` — U+0009..U+000D, U+001C..U+001F, U+0020, U+0085,
U+00A0, U+1680, U+2000..U+200A, U+2028, U+2029, U+202F, U+205F, U+3000. -/
def isPySpace (c : Char) : Bool :=
  (0x09 ≤ c.val && c.val ≤ 0x0D) || (0x1C ≤ c.val && c.val ≤ 0x1F) ||
  c.val = 0x20 || c.val = 0x85 || c.val = 0xA0 || c.val = 0x1680 ||
  (0x2000 ≤ c.val && c.val ≤ 0x200A) || c.val = 0x2028 || c.val = 0x2029 ||
  c.val = 0x202F || c.val = 0x205F || c.val = 0x3000

/-- The characters removed by `strip('"\'')` on lines 172 and 233. -/
def isQuote (c : Char) : Bool :=
  c = '"' || c = '\''

/-- Python `str.strip(chars)`: remove the longest run of characters
satisfying `p` from both ends. -/
def stripChars (p : Char → Bool) (s : Str) : Str :=
  ((s.dropWhile p).reverse.dropWhile p).reverse

/-- Python `str.strip()` with no argument. -/
def pystrip (s : Str) : Str := stripChars isPySpace s

/-- Python `str.strip('"\'')`. -/
def stripQuotes (s : Str) : Str := stripChars isQuote s

/-- `self.hashtags` (lines 68-72). -/
def hashtags : List Str :=
  [("#CryptoXpress").toList, ("#CX").toList, ("#Crypto").toList,
   ("#Cryptocurrency").toList, ("#NFT").toList, ("#Trading").toList,
   ("#CryptoTrading").toList, ("#CryptoPayments").toList,
   ("#DigitalWallet").toList, ("#CryptoTravel").toList,
   ("#CryptoShopping").toList, ("#CryptoLife").toList,
   ("#CryptoMadeEasy").toList]

/-- `self.backup_tweets` (lines 75-84). -/
def backup_tweets : List Str :=
  [("Buy and sell over 300 cryptocurrencies with 900+ trading pairs using only 3 clicks, without paying any commissions. #CryptoXpress #CryptoMadeEasy").toList,
   ("Book flights, accommodation, tours, rental cars and much more directly from CryptoXpress. Your crypto, your travel plans! #CryptoTravel #CX").toList,
   ("We're on a mission to make crypto easy! CryptoXpress is the bridge between your crypto world and everyday life. #CryptoXpress #CryptoLife").toList,
   ("Pay bills, transfer money, and maintain your cryptocurrency holdings all in one digital wallet. That's the CryptoXpress way! #DigitalWallet #CryptoPayments").toList,
   ("Trading crypto shouldn't be rocket science. With CryptoXpress, it's just 3 clicks to buy and sell - commission-free! #CryptoTrading #CX").toList,
   ("From NFTs to bill payments, CryptoXpress brings everything together in one best-in-class digital experience. #NFT #CryptoMadeEasy").toList,
   ("Why keep your crypto locked away? Use it to book your next vacation with CryptoXpress! #CryptoTravel #CryptoShopping").toList,
   ("Over 300 cryptocurrencies, 900+ trading pairs, 0 commissions. That's the CryptoXpress advantage! #CryptoTrading #CX").toList]

/-- Lines 174-177 / 235-238: append a single space and the randomly sampled
hashtag when the text is short enough and has none.  The hashtag argument
models `random.sample(self.hashtags, 1)[0]`. -/
def add_hashtag (tweet_text hashtag : Str) : Str :=
  if tweet_text.length < 260 ∧ '#' ∉ tweet_text then
    tweet_text ++ ' ' :: hashtag
  else tweet_text

/-- Lines 179-180 / 240-241: `tweet_text[:277] + "..."` when over 280. -/
def truncate_tweet (t : Str) : Str :=
  if 280 < t.length then t.take 277 ++ ("...").toList else t

/-- Hashtag augmentation followed by the 280-truncation, the common tail of
both generators. -/
def postprocess (tweet_text hashtag : Str) : Str :=
  truncate_tweet (add_hashtag tweet_text hashtag)

/-- Lines 167-172: drop a leading echo of the prompt context (stripping the
remainder), then strip surrounding quotes, then surrounding whitespace. -/
def cleanup_hf (context raw : Str) : Str :=
  let g := if raw.take context.length = context then pystrip (raw.drop context.length) else raw
  pystrip (stripQuotes g)

/-- Lines 230-233: the TextGen generator has no echo removal, only the
quote and whitespace strip. -/
def cleanup_textgen (raw : Str) : Str := pystrip (stripQuotes raw)

/-- `generate_tweet_with_huggingface` (lines 125-192), given the backend
outcome: `none` on any HTTP failure, malformed body, or caught exception. -/
def generate_tweet_with_huggingface (context : Str) (response : Option Str) (hashtag : Str) : Option Str :=
  response.map (fun raw => postprocess (cleanup_hf context raw) hashtag)

/-- `generate_tweet_with_textgen` (lines 194-251). -/
def generate_tweet_with_textgen (response : Option Str) (hashtag : Str) : Option Str :=
  response.map (fun raw => postprocess (cleanup_textgen raw) hashtag)

/-- Lines 262-273: the loop over `methods`.  Each entry is one method's
result (`none` when it returned `None` or raised).  A non-empty, non-duplicate
result is returned at once; anything else moves on to the next method. -/
def tryMethods : List (Option Str) → List Str → Option Str
  | [], _ => none
  | none :: rest, posted => tryMethods rest posted
  | some t :: rest, posted =>
      if 0 < t.length ∧ t ∉ posted then some t else tryMethods rest posted

/-- Lines 276-279: the backup tweets not yet posted, reset to the full pool
when all of them have been posted. -/
def available_backup (posted : List Str) : List Str :=
  if backup_tweets.filter (fun t => decide (t ∉ posted)) = [] then backup_tweets
  else backup_tweets.filter (fun t => decide (t ∉ posted))

/-- `get_ai_generated_content` (lines 253-281).  `hf` and `tg` are the two
generators' results in the order of the `methods` list; `r` models the
index drawn by `random.choice` on the fallback pool. -/
def get_ai_generated_content (hf tg : Option Str) (posted : List Str) (r : Nat) : Str :=
  match tryMethods [hf, tg] posted with
  | some t => t
  | none =>
      (available_backup posted).getD (r % (available_backup posted).length) []

/-- The bot's mutable state: `self.posted_tweets` and the contents of
`posted_tweets.txt`. -/
structure BotState where
  posted_tweets : List Str
  log : Str

/-- `save_posted_tweet` (lines 117-123): append `tweet_text + "\n"` to the
file. -/
def save_posted_tweet (file : Str) (tweet_text : Str) : Str :=
  file ++ tweet_text ++ ['\n']

/-- Python text-mode line iteration: split at newline characters, the final
fragment being a line only when non-empty. -/
def splitLinesAux : Str → Str → List Str
  | [], acc => if acc = [] then [] else [acc.reverse]
  | c :: rest, acc =>
      if c = '\n' then acc.reverse :: splitLinesAux rest []
      else splitLinesAux rest (c :: acc)

/-- The lines of a file, as Python's `for line in f` yields them (without
their trailing newline, which `.strip()` removes anyway). -/
def pylines (s : Str) : List Str := splitLinesAux s []

/-- `load_posted_tweets` (lines 103-115): each line of the file, stripped,
is added to the set.  The result lists the members added. -/
def load_posted_tweets (file : Str) : List Str :=
  (pylines file).map pystrip

/-- `posted_tweets.add` on a Python set: no change when already present. -/
def add_posted (posted : List Str) (t : Str) : List Str :=
  if t ∈ posted then posted else t :: posted

/-- `post_tweet` (lines 283-302) given the selected content and whether
`create_tweet` raises.  An empty selection returns `False` (line 287); a
raising publish call is caught and returns `False` with no state change;
on success the tweet is added to the set and appended to the log. -/
def post_tweet (st : BotState) (tweet_text : Str) (publish_raises : Bool) : Bool × BotState :=
  if tweet_text = [] then (false, st)
  else if publish_raises then (false, st)
  else (true, ⟨add_posted st.posted_tweets tweet_text, save_posted_tweet st.log tweet_text⟩)

/-- `get_ai_generated_content` as a state transformer: the method only reads
`self.posted_tweets` (lines 253-281 contain no assignment to state). -/
def get_ai_generated_content_st (st : BotState) (hf tg : Option Str) (r : Nat) : Str × BotState :=
  (get_ai_generated_content hf tg st.posted_tweets r, st)

/-- Lines 326-331: the next interval in minutes; `u` models
`random.uniform(-variation, variation)` with `variation = interval * 0.2`. -/
def compute_next_interval (interval_minutes : ℚ) (randomize_interval : Bool) (u : ℚ) : ℚ :=
  if randomize_interval then interval_minutes + u else interval_minutes

/-- Lines 338-343: seconds slept after a cycle: `next_interval * 60` on
success, `600` on failure. -/
def sleep_seconds_after_cycle (success : Bool) (next_interval : ℚ) : ℚ :=
  if success then next_interval * 60 else 600

/-- A generator's result is `None` or the postprocessing of some cleaned
text with a hashtag drawn from `self.hashtags`. -/
def isGenOutput (o : Option Str) : Prop :=
  o = none ∨ ∃ cleaned h, h ∈ hashtags ∧ o = some (postprocess cleaned h)

/-- The method's result is discarded by the selector loop: it returned
`None` (or raised), returned empty text, or a duplicate. -/
def failOrDup (o : Option Str) (posted : List Str) : Prop :=
  ∀ t, o = some t → t.length = 0 ∨ t ∈ posted

lemma head?_dropWhile_false (p : Char → Bool) :
    ∀ (l : Str) (c : Char), (l.dropWhile p).head? = some c → p c = false := by
  intro l
  induction l with
  | nil => intro c h; simp [List.dropWhile] at h
  | cons a l ih =>
      intro c h
      rw [List.dropWhile_cons] at h
      by_cases hp : p a
      · rw [if_pos hp] at h; exact ih c h
      · rw [if_neg hp] at h
        simp only [List.head?_cons, Option.some.injEq] at h
        subst h
        simp only [Bool.not_eq_true] at hp
        exact hp

lemma getLast?_dropWhile (p : Char → Bool) :
    ∀ (l : Str), l.dropWhile p ≠ [] → (l.dropWhile p).getLast? = l.getLast? := by
  intro l
  induction l with
  | nil => intro h; simp [List.dropWhile] at h
  | cons a l ih =>
      intro h
      rw [List.dropWhile_cons] at h ⊢
      by_cases hp : p a
      · rw [if_pos hp] at h ⊢
        rw [ih h]
        cases l with
        | nil => simp [List.dropWhile] at h
        | cons b l => rw [List.getLast?_cons_cons]
      · rw [if_neg hp]

lemma stripChars_head?_false (p : Char → Bool) (s : Str) (c : Char)
    (h : (stripChars p s).head? = some c) : p c = false := by
  unfold stripChars at h
  rw [List.head?_reverse] at h
  have hne : ((s.dropWhile p).reverse.dropWhile p) ≠ [] := by
    intro h0; rw [h0] at h; simp at h
  rw [getLast?_dropWhile p _ hne, List.getLast?_reverse] at h
  exact head?_dropWhile_false p s c h

lemma stripChars_getLast?_false (p : Char → Bool) (s : Str) (c : Char)
    (h : (stripChars p s).getLast? = some c) : p c = false := by
  unfold stripChars at h
  rw [List.getLast?_reverse] at h
  exact head?_dropWhile_false p _ c h

lemma splitLinesAux_line : ∀ (t : Str), '\n' ∉ t →
    ∀ (s acc : Str),
      splitLinesAux (t ++ '\n' :: s) acc = (acc.reverse ++ t) :: splitLinesAux s [] := by
  intro t
  induction t with
  | nil => intro _ s acc; simp [splitLinesAux]
  | cons c t ih =>
      intro hnl s acc
      have hc : ¬(c = '\n') := fun h => hnl (h ▸ List.mem_cons_self c t)
      have hnl' : '\n' ∉ t := fun h => hnl (List.mem_cons_of_mem c h)
      show splitLinesAux (c :: (t ++ '\n' :: s)) acc = (acc.reverse ++ c :: t) :: splitLinesAux s []
      rw [splitLinesAux, if_neg hc, ih hnl' s (c :: acc)]
      simp

lemma splitLinesAux_append : ∀ (file : Str), file.getLast? = some '\n' →
    ∀ (rest acc : Str),
      splitLinesAux (file ++ rest) acc = splitLinesAux file acc ++ splitLinesAux rest [] := by
  intro file
  induction file with
  | nil => intro h; simp at h
  | cons c file ih =>
      intro h rest acc
      cases file with
      | nil =>
          have hc : c = '\n' := by simpa using h
          subst hc
          show splitLinesAux ('\n' :: rest) acc = splitLinesAux ['\n'] acc ++ splitLinesAux rest []
          simp [splitLinesAux]
      | cons d file' =>
          have h' : (d :: file').getLast? = some '\n' := by
            rwa [List.getLast?_cons_cons] at h
          show splitLinesAux (c :: (d :: file' ++ rest)) acc
            = splitLinesAux (c :: d :: file') acc ++ splitLinesAux rest []
          by_cases hc : c = '\n'
          · subst hc
            conv_lhs => rw [splitLinesAux]
            rw [if_pos rfl, ih h' rest []]
            conv_rhs => rw [splitLinesAux]
            rw [if_pos rfl]
            simp
          · conv_lhs => rw [splitLinesAux]
            rw [if_neg hc, ih h' rest (c :: acc)]
            conv_rhs => rw [splitLinesAux]
            rw [if_neg hc]

lemma pylines_save (file t : Str) (hnl : '\n' ∉ t)
    (hfile : file = [] ∨ file.getLast? = some '\n') :
    pylines (save_posted_tweet file t) = pylines file ++ [t] := by
  have hline : splitLinesAux (t ++ ['\n']) [] = [t] := by
    have h0 := splitLinesAux_line t hnl [] []
    simpa [splitLinesAux] using h0
  unfold save_posted_tweet pylines
  rw [List.append_assoc]
  rcases hfile with h | h
  · subst h
    simpa [splitLinesAux] using hline
  · rw [splitLinesAux_append file h (t ++ ['\n']) [], hline]

lemma getD_eq_get : ∀ (l : List Str) (n : Nat) (d : Str) (h : n < l.length),
    l.getD n d = l.get ⟨n, h⟩ := by
  intro l
  induction l with
  | nil => intro n d h; simp at h
  | cons a l ih =>
      intro n d h
      cases n with
      | zero => rfl
      | succ n => exact ih n d (Nat.lt_of_succ_lt_succ h)

lemma backup_tweets_nodup : backup_tweets.Nodup := by decide

lemma backup_len_le (t : Str) (ht : t ∈ backup_tweets) : t.length ≤ 280 := by
  have hall : ∀ x ∈ backup_tweets, x.length ≤ 280 := by decide
  exact hall t ht

lemma backup_ne_nil_elem (t : Str) (ht : t ∈ backup_tweets) : t ≠ [] := by
  have hall : ∀ x ∈ backup_tweets, x ≠ ([] : Str) := by decide
  exact hall t ht

lemma hashtag_len_le (h : Str) (hh : h ∈ hashtags) : h.length ≤ 15 := by
  have hall : ∀ x ∈ hashtags, x.length ≤ 15 := by decide
  exact hall h hh

lemma available_backup_ne_nil (posted : List Str) : available_backup posted ≠ [] := by
  unfold available_backup
  by_cases hav : backup_tweets.filter (fun t => decide (t ∉ posted)) = []
  · rw [if_pos hav]; decide
  · rw [if_neg hav]; exact hav

lemma available_backup_subset (posted : List Str) :
    ∀ t ∈ available_backup posted, t ∈ backup_tweets := by
  intro t ht
  unfold available_backup at ht
  by_cases hav : backup_tweets.filter (fun t => decide (t ∉ posted)) = []
  · rwa [if_pos hav] at ht
  · rw [if_neg hav] at ht
    exact List.mem_of_mem_filter ht

lemma available_backup_nodup (posted : List Str) : (available_backup posted).Nodup := by
  unfold available_backup
  by_cases hav : backup_tweets.filter (fun t => decide (t ∉ posted)) = []
  · rw [if_pos hav]; exact backup_tweets_nodup
  · rw [if_neg hav]; exact backup_tweets_nodup.filter _

lemma tryMethods_step (o : Option Str) (rest : List (Option Str)) (posted : List Str)
    (ho : failOrDup o posted) :
    tryMethods (o :: rest) posted = tryMethods rest posted := by
  cases o with
  | none => rfl
  | some t =>
      have hd := ho t rfl
      show (if 0 < t.length ∧ t ∉ posted then some t else tryMethods rest posted)
        = tryMethods rest posted
      rw [if_neg]
      rintro ⟨hl, hm⟩
      rcases hd with h0 | h0
      · omega
      · exact hm h0

lemma tryMethods_eq_none (hf tg : Option Str) (posted : List Str)
    (h1 : failOrDup hf posted) (h2 : failOrDup tg posted) :
    tryMethods [hf, tg] posted = none := by
  rw [tryMethods_step hf [tg] posted h1, tryMethods_step tg [] posted h2]
  rfl

lemma ellipsis_len : (("...").toList).length = 3 := by decide

lemma postprocess_length_le (cleaned h : Str) (hh : h ∈ hashtags) :
    (postprocess cleaned h).length ≤ 280 := by
  have hlen : h.length ≤ 15 := hashtag_len_le h hh
  unfold postprocess truncate_tweet
  by_cases hc : 280 < (add_hashtag cleaned h).length
  · rw [if_pos hc]
    rw [List.length_append, List.length_take, ellipsis_len]
    omega
  · rw [if_neg hc]
    omega

lemma fallback_mem_backup (posted : List Str) (s : Nat) :
    (available_backup posted).getD (s % (available_backup posted).length) [] ∈ backup_tweets := by
  have hlen : 0 < (available_backup posted).length :=
    List.length_pos.mpr (available_backup_ne_nil posted)
  rw [getD_eq_get _ _ _ (Nat.mod_lt s hlen)]
  exact available_backup_subset posted _ (List.get_mem _ _ _)

lemma get_ai_cases (hf tg : Option Str) (posted : List Str) (r : Nat) :
    (∃ t, (hf = some t ∨ tg = some t) ∧ get_ai_generated_content hf tg posted r = t) ∨
    get_ai_generated_content hf tg posted r ∈ backup_tweets := by
  unfold get_ai_generated_content
  cases hf with
  | none =>
      cases tg with
      | none => exact Or.inr (fallback_mem_backup posted r)
      | some u =>
          simp only [tryMethods]
          by_cases hc : 0 < u.length ∧ u ∉ posted
          · rw [if_pos hc]; exact Or.inl ⟨u, Or.inr rfl, rfl⟩
          · rw [if_neg hc]; exact Or.inr (fallback_mem_backup posted r)
  | some t =>
      simp only [tryMethods]
      by_cases hc : 0 < t.length ∧ t ∉ posted
      · rw [if_pos hc]; exact Or.inl ⟨t, Or.inl rfl, rfl⟩
      · rw [if_neg hc]
        cases tg with
        | none => exact Or.inr (fallback_mem_backup posted r)
        | some u =>
            simp only [tryMethods]
            by_cases hc2 : 0 < u.length ∧ u ∉ posted
            · rw [if_pos hc2]; exact Or.inl ⟨u, Or.inr rfl, rfl⟩
            · rw [if_neg hc2]; exact Or.inr (fallback_mem_backup posted r)

/-- C1: every message the content selector returns — generator-produced or
drawn from the backup pool — has length at most 280 characters. -/
theorem spec_C1 (hf tg : Option Str) (posted : List Str) (r : Nat)
    (h1 : isGenOutput hf) (h2 : isGenOutput tg) :
    (get_ai_generated_content hf tg posted r).length ≤ 280 := by
  rcases get_ai_cases hf tg posted r with ⟨t, hor, heq⟩ | hmem
  · rw [heq]
    rcases hor with h | h
    · rcases h1 with h1 | ⟨cleaned, ht, hhm, hrfl⟩
      · rw [h1] at h; cases h
      · rw [hrfl] at h
        rw [Option.some.injEq] at h
        rw [← h]
        exact postprocess_length_le cleaned ht hhm
    · rcases h2 with h2 | ⟨cleaned, ht, hhm, hrfl⟩
      · rw [h2] at h; cases h
      · rw [hrfl] at h
        rw [Option.some.injEq] at h
        rw [← h]
        exact postprocess_length_le cleaned ht hhm
  · exact backup_len_le _ hmem

/-- C1 witness at a concrete generator output and empty posted set. -/
theorem spec_C1_witness :
    (get_ai_generated_content (some (postprocess (("hello").toList) (("#CX").toList)))
      none [] 0).length ≤ 280 :=
  spec_C1 _ none [] 0
    (Or.inr ⟨("hello").toList, ("#CX").toList, by decide, rfl⟩) (Or.inl rfl)

/-- C2: when both generators fail (or only produce duplicates / empty text),
the selector draws from the backup entries not yet posted — from the full
pool when every entry has been posted — and the draw is uniform over exactly
that eligible list: the result is always one of its entries, every entry is
reached by some index below its length, distinct indices give distinct
entries, and the result is never empty. -/
theorem spec_C2 (hf tg : Option Str) (posted : List Str) (r : Nat)
    (h1 : failOrDup hf posted) (h2 : failOrDup tg posted) :
    get_ai_generated_content hf tg posted r ∈ available_backup posted ∧
    get_ai_generated_content hf tg posted r ∈ backup_tweets ∧
    get_ai_generated_content hf tg posted r ≠ [] ∧
    ((∃ t ∈ backup_tweets, t ∉ posted) →
        available_backup posted = backup_tweets.filter (fun t => decide (t ∉ posted)) ∧
        get_ai_generated_content hf tg posted r ∉ posted) ∧
    ((∀ t ∈ backup_tweets, t ∈ posted) → available_backup posted = backup_tweets) ∧
    (∀ t ∈ available_backup posted, ∃ i, i < (available_backup posted).length ∧
        get_ai_generated_content hf tg posted i = t) ∧
    (∀ i j, i < (available_backup posted).length → j < (available_backup posted).length →
        get_ai_generated_content hf tg posted i = get_ai_generated_content hf tg posted j →
        i = j) := by
  have hnone := tryMethods_eq_none hf tg posted h1 h2
  have hlen : 0 < (available_backup posted).length :=
    List.length_pos.mpr (available_backup_ne_nil posted)
  have key : ∀ s : Nat, get_ai_generated_content hf tg posted s
      = (available_backup posted).get ⟨s % (available_backup posted).length, Nat.mod_lt s hlen⟩ := by
    intro s
    unfold get_ai_generated_content
    rw [hnone]
    exact getD_eq_get _ _ _ _
  have hmemAB : ∀ s : Nat, get_ai_generated_content hf tg posted s ∈ available_backup posted := by
    intro s
    rw [key s]
    exact List.get_mem _ _ _
  have hfilter_eq : (∃ t ∈ backup_tweets, t ∉ posted) →
      available_backup posted = backup_tweets.filter (fun t => decide (t ∉ posted)) := by
    rintro ⟨t, htm, htp⟩
    have hne : backup_tweets.filter (fun t => decide (t ∉ posted)) ≠ [] := by
      intro h0
      have : t ∈ backup_tweets.filter (fun t => decide (t ∉ posted)) :=
        List.mem_filter.mpr ⟨htm, by simpa using htp⟩
      rw [h0] at this
      cases this
    unfold available_backup
    rw [if_neg hne]
  refine ⟨hmemAB r, available_backup_subset posted _ (hmemAB r),
    backup_ne_nil_elem _ (available_backup_subset posted _ (hmemAB r)), ?_, ?_, ?_, ?_⟩
  · intro hex
    refine ⟨hfilter_eq hex, ?_⟩
    have hm := hmemAB r
    rw [hfilter_eq hex] at hm
    have := (List.mem_filter.mp hm).2
    simpa using this
  · intro hall
    have hnil : backup_tweets.filter (fun t => decide (t ∉ posted)) = [] := by
      rw [List.filter_eq_nil_iff]
      intro a ha
      simpa using hall a ha
    unfold available_backup
    rw [if_pos hnil]
  · intro t ht
    rcases List.mem_iff_get.mp ht with ⟨⟨i, hi⟩, hget⟩
    refine ⟨i, hi, ?_⟩
    rw [key i]
    have hmod : i % (available_backup posted).length = i := Nat.mod_eq_of_lt hi
    simpa [hmod] using hget
  · intro i j hi hj heq
    rw [key i, key j] at heq
    have hinj := (available_backup_nodup posted).get_inj_iff.mp heq
    have hmi : i % (available_backup posted).length = i := Nat.mod_eq_of_lt hi
    have hmj : j % (available_backup posted).length = j := Nat.mod_eq_of_lt hj
    rw [Fin.mk.injEq] at hinj
    rw [hmi, hmj] at hinj
    exact hinj

/-- C2 witness: with both generators returning `None` and nothing posted,
the selector returns a member of the backup pool. -/
theorem spec_C2_witness :
    get_ai_generated_content none none [] 0 ∈ backup_tweets :=
  (spec_C2 none none [] 0 (fun _ h => Option.noConfusion h)
    (fun _ h => Option.noConfusion h)).2.1

/-- C3: the selector tries Hugging Face first and TextGen second; a
non-empty, non-duplicate result is returned immediately (independently of
the later generator), a duplicate or empty candidate is discarded and the
selector behaves exactly as if that generator had returned `None` (the same
generator is not retried), and when both produce fresh text the Hugging
Face text wins. -/
theorem spec_C3 :
    (∀ (t : Str) (tg : Option Str) (posted : List Str) (r : Nat),
        0 < t.length → t ∉ posted →
        get_ai_generated_content (some t) tg posted r = t) ∧
    (∀ (t : Str) (tg : Option Str) (posted : List Str) (r : Nat),
        t.length = 0 ∨ t ∈ posted →
        get_ai_generated_content (some t) tg posted r
          = get_ai_generated_content none tg posted r) ∧
    (∀ (u : Str) (posted : List Str) (r : Nat),
        0 < u.length → u ∉ posted →
        get_ai_generated_content none (some u) posted r = u) ∧
    (∀ (t u : Str) (posted : List Str) (r : Nat),
        0 < t.length → t ∉ posted → 0 < u.length → u ∉ posted →
        get_ai_generated_content (some t) (some u) posted r = t) := by
  have fresh : ∀ (t : Str) (tg : Option Str) (posted : List Str) (r : Nat),
      0 < t.length → t ∉ posted →
      get_ai_generated_content (some t) tg posted r = t := by
    intro t tg posted r hl hm
    unfold get_ai_generated_content
    simp only [tryMethods]
    rw [if_pos ⟨hl, hm⟩]
  refine ⟨fresh, ?_, ?_, fun t u posted r h1 h2 _ _ => fresh t (some u) posted r h1 h2⟩
  · intro t tg posted r h
    unfold get_ai_generated_content
    simp only [tryMethods]
    rw [if_neg]
    rintro ⟨hl, hm⟩
    rcases h with h0 | h0
    · omega
    · exact hm h0
  · intro u posted r hl hm
    unfold get_ai_generated_content
    simp only [tryMethods]
    rw [if_pos ⟨hl, hm⟩]

/-- C3 witness: a fresh single-character Hugging Face result is returned
as-is. -/
theorem spec_C3_witness :
    get_ai_generated_content (some ['a']) none [] 0 = ['a'] :=
  spec_C3.1 ['a'] none [] 0 (by decide) (by decide)

/-- C4: when `create_tweet` raises, `post_tweet` returns `False`, the
in-memory posted set and the persisted log are unchanged, and the scheduler
then sleeps 600 seconds before the next cycle. -/
theorem spec_C4 (st : BotState) (tweet_text : Str) (next_interval : ℚ) :
    (post_tweet st tweet_text true).1 = false ∧
    (post_tweet st tweet_text true).2 = st ∧
    sleep_seconds_after_cycle (post_tweet st tweet_text true).1 next_interval = 600 := by
  have h12 : post_tweet st tweet_text true = (false, st) := by
    by_cases ht : tweet_text = [] <;> simp [post_tweet, ht]
  rw [h12]
  exact ⟨rfl, rfl, rfl⟩

/-- C5 as stated is false: `load_posted_tweets` strips each line, so a
message with leading whitespace is not a member after the round trip. -/
theorem spec_C5_cex :
    ¬ ((" x").toList ∈ load_posted_tweets (save_posted_tweet [] ((" x").toList))) := by
  decide

/-- C5 (amended): for every message that contains no newline or carriage
return and carries no leading or trailing whitespace, appending it via
`save_posted_tweet` to an empty or newline-terminated log and reloading via
`load_posted_tweets` yields that message as a member.  (The carriage-return
condition reflects Python universal-newline reading of the log file.) -/
theorem spec_C5 (file t : Str) (h1 : '\n' ∉ t) (h2 : '\r' ∉ t)
    (h3 : pystrip t = t) (h4 : file = [] ∨ file.getLast? = some '\n') :
    t ∈ load_posted_tweets (save_posted_tweet file t) := by
  unfold load_posted_tweets
  rw [pylines_save file t h1 h4, List.map_append]
  refine List.mem_append_right _ ?_
  simp [h3]

/-- C5 witness on a newline-terminated one-line log. -/
theorem spec_C5_witness :
    ("hello").toList ∈ load_posted_tweets (save_posted_tweet (("a\n").toList) (("hello").toList)) :=
  spec_C5 (("a\n").toList) (("hello").toList) (by decide) (by decide) (by decide)
    (Or.inr (by decide))

/-- C6 as stated is false: quotes are stripped before whitespace, so a quote
that was surrounded by whitespace survives and the generator's result can
start with a quote character. -/
theorem spec_C6_cex :
    generate_tweet_with_textgen (some ((" \"a\" ").toList)) (("#CX").toList)
      = some (("\"a\" #CX").toList) ∧
    (("\"a\" #CX").toList).head? = some '"' ∧
    isQuote '"' = true ∧
    ("#CX").toList ∈ hashtags := by
  decide

/-- C6 (amended): a generator strips the surrounding quote characters first
and the surrounding whitespace second, in a single pass each — so the
cleaned text never starts or ends with whitespace (quote characters exposed
by the whitespace strip may remain), after the quote-strip stage the text
never starts or ends with a quote, and a leading echo of the input context
is removed (the rest being stripped) when the backend includes it. -/
theorem spec_C6 :
    (∀ (raw : Str) (c : Char),
        ((cleanup_textgen raw).head? = some c → isPySpace c = false) ∧
        ((cleanup_textgen raw).getLast? = some c → isPySpace c = false)) ∧
    (∀ (context raw : Str) (c : Char),
        ((cleanup_hf context raw).head? = some c → isPySpace c = false) ∧
        ((cleanup_hf context raw).getLast? = some c → isPySpace c = false)) ∧
    (∀ (raw : Str) (c : Char),
        ((stripQuotes raw).head? = some c → isQuote c = false) ∧
        ((stripQuotes raw).getLast? = some c → isQuote c = false)) ∧
    (∀ context rest : Str,
        cleanup_hf context (context ++ rest) = pystrip (stripQuotes (pystrip rest))) := by
  refine ⟨?_, ?_, ?_, ?_⟩
  · intro raw c
    exact ⟨stripChars_head?_false isPySpace _ c, stripChars_getLast?_false isPySpace _ c⟩
  · intro context raw c
    exact ⟨stripChars_head?_false isPySpace _ c, stripChars_getLast?_false isPySpace _ c⟩
  · intro raw c
    exact ⟨stripChars_head?_false isQuote _ c, stripChars_getLast?_false isQuote _ c⟩
  · intro context rest
    unfold cleanup_hf
    rw [List.take_left, List.drop_left, if_pos rfl]

/-- C6 witness: a stripped character is not whitespace, and the echo of a
concrete context is removed. -/
theorem spec_C6_witness :
    isPySpace 'a' = false ∧
    cleanup_hf (("AB").toList) ((("AB").toList) ++ ((" x ").toList))
      = pystrip (stripQuotes (pystrip ((" x ").toList))) :=
  ⟨(spec_C6.1 ((" a ").toList) 'a').1 (by decide),
   spec_C6.2.2.2 (("AB").toList) ((" x ").toList)⟩

/-- C7: with randomization enabled the next interval lies within plus or
minus 20 percent of the base interval (the draw itself ranging over exactly
that band); with it disabled the next interval equals the base; for a base
of 60 minutes the jittered interval lies in [48, 72]. -/
theorem spec_C7 (b u : ℚ) (hu1 : -(b * 0.2) ≤ u) (hu2 : u ≤ b * 0.2) :
    (0.8 * b ≤ compute_next_interval b true u ∧ compute_next_interval b true u ≤ 1.2 * b) ∧
    compute_next_interval b false u = b ∧
    (b = 60 → 48 ≤ compute_next_interval b true u ∧ compute_next_interval b true u ≤ 72) := by
  have ht : compute_next_interval b true u = b + u := by simp [compute_next_interval]
  have hf : compute_next_interval b false u = b := by simp [compute_next_interval]
  refine ⟨⟨?_, ?_⟩, hf, ?_⟩
  · rw [ht]; linarith
  · rw [ht]; linarith
  · intro hb
    subst hb
    rw [ht]
    constructor <;> linarith

/-- C7 witness at base 60 minutes and a zero draw. -/
theorem spec_C7_witness :
    48 ≤ compute_next_interval 60 true 0 ∧ compute_next_interval 60 true 0 ≤ 72 :=
  (spec_C7 60 0 (by norm_num) (by norm_num)).2.2 rfl

/-- C8: a candidate longer than 280 characters becomes its first 277
characters plus the three-character ellipsis, total exactly 280; in
particular a cleaned text of length 300 yields a final message of exactly
280 characters. -/
theorem spec_C8 :
    (∀ t : Str, 280 < t.length →
        truncate_tweet t = t.take 277 ++ ("...").toList ∧ (truncate_tweet t).length = 280) ∧
    (∀ (cleaned h : Str), cleaned.length = 300 → (postprocess cleaned h).length = 280) := by
  constructor
  · intro t ht
    have heq : truncate_tweet t = t.take 277 ++ ("...").toList := by
      unfold truncate_tweet; rw [if_pos ht]
    refine ⟨heq, ?_⟩
    rw [heq, List.length_append, List.length_take, ellipsis_len]
    omega
  · intro cleaned h hlen
    have hadd : add_hashtag cleaned h = cleaned := by
      unfold add_hashtag
      rw [if_neg]
      rintro ⟨hx, -⟩
      omega
    unfold postprocess truncate_tweet
    rw [hadd, if_pos (by omega), List.length_append, List.length_take, ellipsis_len]
    omega

/-- C8 witness on a 300-character text. -/
theorem spec_C8_witness :
    (postprocess (List.replicate 300 'a') (("#CX").toList)).length = 280 :=
  spec_C8.2 (List.replicate 300 'a') (("#CX").toList) (by simp)

/-- C9: cleaned text shorter than 260 characters with no hashtag marker gets
exactly one hashtag from the fixed set appended after a single space, and
the result stays within 280 characters; text of length 260 or more, or
already containing a hashtag marker, is left without an appended hashtag. -/
theorem spec_C9 (cleaned h : Str) (hh : h ∈ hashtags) :
    (cleaned.length < 260 → '#' ∉ cleaned →
        postprocess cleaned h = cleaned ++ ' ' :: h ∧ (postprocess cleaned h).length ≤ 280) ∧
    (260 ≤ cleaned.length ∨ '#' ∈ cleaned → add_hashtag cleaned h = cleaned) := by
  have hlen : h.length ≤ 15 := hashtag_len_le h hh
  constructor
  · intro h1 h2
    have hadd : add_hashtag cleaned h = cleaned ++ ' ' :: h := by
      unfold add_hashtag
      rw [if_pos ⟨h1, h2⟩]
    have hle : (cleaned ++ ' ' :: h).length ≤ 280 := by
      rw [List.length_append, List.length_cons]
      omega
    constructor
    · unfold postprocess truncate_tweet
      rw [hadd, if_neg (by omega)]
    · unfold postprocess truncate_tweet
      rw [hadd, if_neg (by omega)]
      exact hle
  · intro hcase
    unfold add_hashtag
    rw [if_neg]
    rintro ⟨ha, hb⟩
    rcases hcase with hc | hc
    · omega
    · exact hb hc

/-- C9 witness: a short hashtag-free text gets exactly one hashtag. -/
theorem spec_C9_witness :
    postprocess (("hi").toList) (("#CX").toList)
      = (("hi").toList) ++ ' ' :: (("#CX").toList) ∧
    (postprocess (("hi").toList) (("#CX").toList)).length ≤ 280 :=
  (spec_C9 (("hi").toList) (("#CX").toList) (by decide)).1 (by decide) (by decide)

/-- C10: content selection never mutates the bot state; `post_tweet` leaves
the state unchanged when the publish call raises or no content was selected,
and appends the tweet to the posted set and the log exactly when the publish
call returns without raising. -/
theorem spec_C10 (st : BotState) (hf tg : Option Str) (r : Nat) (tweet_text : Str) :
    (get_ai_generated_content_st st hf tg r).2 = st ∧
    (post_tweet st tweet_text true).2 = st ∧
    (tweet_text ≠ [] →
        (post_tweet st tweet_text false).1 = true ∧
        (post_tweet st tweet_text false).2.posted_tweets
          = add_posted st.posted_tweets tweet_text ∧
        (post_tweet st tweet_text false).2.log = save_posted_tweet st.log tweet_text) ∧
    (tweet_text = [] → (post_tweet st tweet_text false).2 = st) := by
  refine ⟨rfl, ?_, ?_, ?_⟩
  · by_cases ht : tweet_text = [] <;> simp [post_tweet, ht]
  · intro ht
    simp [post_tweet, ht]
  · intro ht
    simp [post_tweet, ht]

/-- C10 witness: a successful publish of a non-empty tweet reports success. -/
theorem spec_C10_witness :
    (post_tweet ⟨[], []⟩ ['a'] false).1 = true :=
  ((spec_C10 ⟨[], []⟩ none none 0 ['a']).2.2.1 (by decide)).1

end TwitterBot
